import Mathlib

/-!
Verification of the chromium session-pool package (state303/chromium).

The package wraps a browser automation engine: a fixed pool of page handles,
a once-only page release protocol, an indefinite retry-with-backoff navigation
loop, a click/navigate signal race, a script-object waiter, and an error
classifier that rewrites the engine's "ABORTED" error text into the canonical
cancellation error.  Each Go function used by the development is embedded
below as an executable Lean definition; machine integers do not occur, times
and counters are modelled as `Nat` ticks.
-/

namespace Chromium

/-- Errors of the Go `error` interface that the package constructs or meets.
`canceled` is `context.Canceled`; the five named errors are the package-level
variables of error.go; `mk msg` is an engine- or test-produced
`errors.New(msg)`; `wrapped inner topic` is `fmt.Errorf("%w, %+v", inner,
topic)` as produced by `wrap` in error.go. -/
inductive GoError where
  | canceled
  | elementMissing
  | inputFailed
  | waitFailed
  | clickFailed
  | taskTimeout
  | mk (msg : String)
  | wrapped (inner : GoError) (topic : String)
  deriving DecidableEq

/-- Result of Go's `Error()` on each member of `GoError`:
`context.Canceled.Error()` is "context canceled", the package errors carry the
messages from error.go, and a wrapped error renders as
`inner.Error() + ", " + topic` per the `"%w, %+v"` format verb pair. -/
def GoError.message : GoError → String
  | .canceled => "context canceled"
  | .elementMissing => "element missing"
  | .inputFailed => "input failed"
  | .waitFailed => "wait failed"
  | .clickFailed => "click failed"
  | .taskTimeout => "task timeout"
  | .mk msg => msg
  | .wrapped inner topic => inner.message ++ ", " ++ topic

/-- Whether the character list `s` starts with the character list `pat`. -/
def listStartsWith : List Char → List Char → Bool
  | [], _ => true
  | _ :: _, [] => false
  | a :: as, b :: bs => a == b && listStartsWith as bs

/-- Whether `pat` occurs as a contiguous run inside `s`
(the semantics of Go's `strings.Contains` on the underlying bytes,
expressed over characters). -/
def hasSubList (pat : List Char) : List Char → Bool
  | [] => listStartsWith pat []
  | c :: rest => listStartsWith pat (c :: rest) || hasSubList pat rest

/-- Go `strings.Contains(s, pat)`. -/
def strContains (s pat : String) : Bool :=
  hasSubList pat.toList s.toList

/-- Non-nil branch of `replaceAbortedError` in error.go: an error whose
message contains "ABORTED" becomes `context.Canceled`; any other error is
returned unchanged. -/
def replaceAbortedErrorNN (e : GoError) : GoError :=
  if strContains e.message "ABORTED" then .canceled else e

/-- Mirrors `replaceAbortedError` in error.go, with `none` standing for a nil
Go error: nil passes through untouched; otherwise defer to the non-nil
branch. -/
def replaceAbortedError : Option GoError → Option GoError
  | none => none
  | some e => some (replaceAbortedErrorNN e)

/-- Mirrors `wrap` in error.go: classify the error, then wrap it with the
topic using the `"%w, %+v"` format. -/
def wrap (err : GoError) (topic : String) : GoError :=
  .wrapped (replaceAbortedErrorNN err) topic

/-- Abstract state of a `PagePool` (pagepool.go), a buffered Go channel of
capacity C: `avail` pages are sitting in the channel, `checkedOut` pages have
been received by callers and not yet sent back. -/
structure PoolState where
  avail : Nat
  checkedOut : Nat
  deriving DecidableEq

/-- One scheduler-visible transition of the pool.  Channel receive and send
are atomic, so every concurrent history of `Get`/`Put` calls is a sequence of
these steps.  `get` mirrors `PagePool.Get` (`<-p`), enabled only while the
channel holds a page — otherwise the receiving goroutine blocks and performs
no transition.  `put` mirrors `PagePool.Put` (`p <- page`) under the caller
discipline of the claim: only a previously acquired page is put back, so a
send happens only while some page is checked out. -/
inductive PoolStep : PoolState → PoolState → Prop
  | get (s : PoolState) (h : 0 < s.avail) :
      PoolStep s ⟨s.avail - 1, s.checkedOut + 1⟩
  | put (s : PoolState) (h : 0 < s.checkedOut) :
      PoolStep s ⟨s.avail + 1, s.checkedOut - 1⟩

/-- Pool states reachable from a pool freshly seeded with its full capacity
C, as `NewBrowserWithProxy` leaves it. -/
inductive PoolReachable (C : Nat) : PoolState → Prop
  | init : PoolReachable C ⟨C, 0⟩
  | step {s t : PoolState} : PoolReachable C s → PoolStep s t → PoolReachable C t

/-- Release-relevant state of one `Page` (page.go): whether its `sync.Once`
has been consumed, how many times the `done` release callback (the browser's
`wg.Done`) has run, and how many times `rod.Page.Close` has been invoked. -/
structure PageLifeState where
  onceUsed : Bool
  doneCalls : Nat
  closeCalls : Nat
  deriving DecidableEq

/-- State of a page as built by `newPage`: fresh `sync.Once`, callback not
yet run. -/
def initPageState : PageLifeState := ⟨false, 0, 0⟩

/-- Mirrors `Page.CleanUp`: `p.once.Do(p.done)` runs the release callback
only when the once is still fresh (sync.Once also serialises racing callers,
so each invocation is one atomic step), then `_ = p.Close()` discards the
close error `closeErr`. -/
def cleanUp (_closeErr : Option GoError) (s : PageLifeState) : PageLifeState :=
  { onceUsed := true
    doneCalls := if s.onceUsed then s.doneCalls else s.doneCalls + 1
    closeCalls := s.closeCalls + 1 }

/-- A history of `CleanUp` invocations on one page, each carrying whatever
error the underlying `Close` produced that time; `sync.Once` linearises
concurrent invocations, so any interleaving is some such list. -/
def cleanUpRun (errs : List (Option GoError)) (s : PageLifeState) : PageLifeState :=
  errs.foldl (fun st e => cleanUp e st) s

/-- Observable outcome of browser construction: the pool capacity, the number
of pages seeded into the pool, and the initial count of the outstanding
wait-group. -/
structure BrowserInit where
  poolCap : Nat
  seededPages : Nat
  wgCount : Nat
  deriving DecidableEq

/-- Mirrors `NewBrowserWithProxy`: a non-positive `pagePoolSize` is clamped
to 1, the pool is created with that capacity and seeded with one page per
slot, `wg.Add(pagePoolSize)` records the outstanding count, and the function
returns a nil error.  The proxy string only configures the launcher. -/
def newBrowserWithProxy (pagePoolSize : Int) (_proxy : String) :
    BrowserInit × Option GoError :=
  let size : Int := if pagePoolSize ≤ 0 then 1 else pagePoolSize
  (⟨size.toNat, size.toNat, size.toNat⟩, none)

/-- Mirrors `NewBrowser`, which delegates to `NewBrowserWithProxy` with an
empty proxy. -/
def newBrowser (pagePoolSize : Int) : BrowserInit × Option GoError :=
  newBrowserWithProxy pagePoolSize ""

/-- Signals that can arrive at `ClickNavigate`'s select loop, listed in their
arrival order: the navigation-settled signal on `waitDone`, a message on the
`clickFail` channel (`none` is the zero value a receiver obtains once that
channel is closed without a send), or the `time.After(timeout)` timer
firing. -/
inductive RaceEvent where
  | waitDone
  | clickFail (e : Option GoError)
  | timeout
  deriving DecidableEq

/-- Mirrors the `for { select { ... } }` loop of `ClickNavigate` (page.go),
consuming ready signals in arrival order: navigation settled returns nil, a
non-nil click failure is returned on the spot, a nil click-failure message is
skipped and the loop re-enters select, the timer returns `TaskTimeout`.  A
result of `none` means the listed events produced no verdict and the loop is
still blocked in select. -/
def clickNavigateSelect : List RaceEvent → Option (Option GoError)
  | [] => none
  | .waitDone :: _ => some none
  | .clickFail none :: rest => clickNavigateSelect rest
  | .clickFail (some e) :: _ => some (some e)
  | .timeout :: _ => some (some .taskTimeout)

/-- Payload of a Go panic raised by an engine call inside `TryNavigate`:
either a value satisfying the `error` interface (what rod's Must-helpers
panic with) or anything else. -/
inductive PanicVal where
  | errVal (e : GoError)
  | nonError (s : String)
  deriving DecidableEq

/-- Behaviour of the engine and the caller predicate on one navigation
attempt of `TryNavigate`: `fault` is a panic raised by `MustWaitNavigation`,
`MustNavigate` or the settle wait on that attempt (none when the attempt
completes), and `predOk` is what `predicate(p)` returns afterwards. -/
structure NavAttempt where
  fault : Option PanicVal
  predOk : Bool

/-- Observable outcome of one `TryNavigate` call: the error received from
`eChan` (nil when the channel was closed without a send), the number of
navigation attempts made, and the successive `time.Sleep(delay)` durations
performed between attempts, in order. -/
structure NavRun where
  result : Option GoError
  attempts : Nat
  sleeps : List Nat
  deriving DecidableEq

/-- Runs the goroutine body of `TryNavigate` (page.go): `delay := backoff`;
at label `tryNavigate` the attempt runs and may panic — the deferred recover
then forwards the value through `isError` and `replaceAbortedError` to
`eChan` when it is an error, or forwards nothing (so the caller reads nil
from the closed channel) when it is not; an attempt rejected by the
predicate does `delay += backoff; time.Sleep(delay)` and jumps back.  `fuel`
bounds how many attempts are unfolded; `none` means the loop is still
running after `fuel` attempts. -/
def tryNavigateLoop (eng : Nat → NavAttempt) (backoff : Nat) :
    Nat → Nat → Nat → Option NavRun
  | _, _, 0 => none
  | delay, attempt, fuel + 1 =>
    match (eng attempt).fault with
    | some (.errVal e) => some ⟨replaceAbortedError (some e), attempt + 1, []⟩
    | some (.nonError _) => some ⟨none, attempt + 1, []⟩
    | none =>
      if (eng attempt).predOk then some ⟨none, attempt + 1, []⟩
      else
        (tryNavigateLoop eng backoff (delay + backoff) (attempt + 1) fuel).map
          (fun r => ⟨r.result, r.attempts, (delay + backoff) :: r.sleeps⟩)

/-- Mirrors `Page.TryNavigate`: the goroutine starts with `delay = backoff`
at attempt 0, and the caller blocks on `<-eChan` for its outcome. -/
def tryNavigate (eng : Nat → NavAttempt) (backoff fuel : Nat) : Option NavRun :=
  tryNavigateLoop eng backoff backoff 0 fuel

/-- Result of one `p.Eval(script)` call inside `WaitJSObjectFor`: an engine
error, or the Bool the script `typeof X !== 'undefined'` evaluated to. -/
inductive EvalResult where
  | err (e : GoError)
  | val (b : Bool)
  deriving DecidableEq

/-- Go `strings.Split(s, ".")` specialised to the dot separator, written over
the character list: splitting an empty string yields one empty segment, and
every dot opens a new segment. -/
def splitDotsChars : List Char → List Char → List String
  | [], acc => [String.mk acc.reverse]
  | c :: rest, acc =>
    if c = '.' then String.mk acc.reverse :: splitDotsChars rest []
    else splitDotsChars rest (c :: acc)

/-- Segments of a dotted object name, as `strings.Split(objName, ".")`. -/
def splitDots (s : String) : List String :=
  splitDotsChars s.toList []

/-- In-place accumulation `items[i] = items[i-1] + "." + items[i]` from the
loop of `WaitJSObjectFor`, continued after a first segment `acc`. -/
def dotAccum (acc : String) : List String → List String
  | [] => []
  | s :: rest =>
    let nxt := acc ++ "." ++ s
    nxt :: dotAccum nxt rest

/-- The cumulative dotted names `WaitJSObjectFor` polls, in polling order:
the segments of `objName`, each extended with all earlier segments and
joining dots, exactly as the source rewrites `items` in place. -/
def cumulativeNames (objName : String) : List String :=
  match splitDots objName with
  | [] => []
  | s :: rest => s :: dotAccum s rest

/-- Segments joined with dots — the wording of the specification for a
"cumulative dotted" name. -/
def joinDots : List String → String
  | [] => ""
  | [s] => s
  | s :: rest => s ++ "." ++ joinDots rest

/-- Modelled from the spec wording "build cumulative prefixes (`a`, `a.b`,
`a.b.c`)": the i-th polled name is the first i+1 segments joined with
dots. -/
def specDottedNames (parts : List String) : List String :=
  (List.range parts.length).map (fun i => joinDots (parts.take (i + 1)))

/-- Outcome of polling one dotted name inside the waiter goroutine. -/
inductive PollOutcome where
  | timedOut
  | errored (e : GoError)
  | found (next : Nat)
  deriving DecidableEq

/-- Inner `for` loop of `WaitJSObjectFor` for one script, on a discrete
clock where one `p.Eval` call takes one tick: the deadline test
`time.Since(begin) > untl` runs before every call (out of fuel exactly when
the tick exceeds `untl`), an `Eval` error ends the goroutine with that
error, a true value sleeps 100ms (`sleepCost` ticks) and breaks to the next
name, a false value loops.  Also returns the ticks at which this name was
polled, oldest first. -/
def pollGo (eval : String → Nat → EvalResult) (sleepCost : Nat) (s : String) :
    Nat → Nat → PollOutcome × List Nat
  | 0, _ => (.timedOut, [])
  | fuel + 1, t =>
    match eval s t with
    | .err e => (.errored e, [t])
    | .val true => (.found (t + 1 + sleepCost), [t])
    | .val false =>
      let r := pollGo eval sleepCost s fuel (t + 1)
      (r.1, t :: r.2)

/-- Polls one name starting at tick `t` against the deadline `untl`:
the remaining fuel `until + 1 - t` makes the loop's deadline test exact —
the first tick strictly past `untl` times out before any further `Eval`. -/
def pollName (eval : String → Nat → EvalResult) (untl sleepCost : Nat)
    (s : String) (t : Nat) : PollOutcome × List Nat :=
  pollGo eval sleepCost s (untl + 1 - t) t

/-- Terminal signal of the waiter goroutine: it returned without sending
(deadline hit), sent on `errChan`, or sent on `doneChan`. -/
inductive WaitOutcome where
  | timedOut
  | errored (e : GoError)
  | done
  deriving DecidableEq

/-- Outer `for i := range items` loop of the waiter goroutine, threading the
clock through the names.  `k` is the index (ghost instrumentation) of the
first remaining name in the full cumulative list; the returned trace records
every poll as an `(index, tick)` pair, in execution order. -/
def runNames (eval : String → Nat → EvalResult) (untl sleepCost : Nat) :
    List String → Nat → Nat → WaitOutcome × List (Nat × Nat)
  | [], _, _ => (.done, [])
  | s :: rest, k, t =>
    match pollName eval untl sleepCost s t with
    | (.timedOut, ts) => (.timedOut, ts.map (fun x => (k, x)))
    | (.errored e, ts) => (.errored e, ts.map (fun x => (k, x)))
    | (.found t2, ts) =>
      let r := runNames eval untl sleepCost rest (k + 1) t2
      (r.1, ts.map (fun x => (k, x)) ++ r.2)

/-- One resolution of `Page.WaitJSObjectFor`: the early returns are
verbatim — an empty name returns nil before the deadline is even looked at,
a zero deadline returns `TaskTimeout` — and past them this function picks
the principal resolution of the select race, the one in which the
message-bearing case (the sent error, the sent done signal) or the fired
timer wins.  The race has further resolutions, because the goroutine closes
`errChan` and `doneChan` by defer on every exit path and a receive on a
closed channel is always ready: the full set of possible returns is
`waitJSObjectForCanReturn` below. -/
def waitJSObjectFor (eval : String → Nat → EvalResult) (objName : String)
    (untl sleepCost : Nat) : Option GoError :=
  if objName.length = 0 then none
  else if untl = 0 then some .taskTimeout
  else
    match (runNames eval untl sleepCost (cumulativeNames objName) 0 0).1 with
    | .timedOut => some .taskTimeout
    | .errored e => some e
    | .done => none

/-- Resolutions of the select race of `WaitJSObjectFor`, given the waiter
goroutine's terminal outcome.  The goroutine runs `defer close(doneChan);
defer close(errChan)` on every exit path, a receive on a closed channel is
always ready, and select chooses arbitrarily among ready cases; a nil read
from the closed `errChan` is skipped by the `err != nil` guard, but the
zero value read from the closed `doneChan` hits `case <-doneChan: return
nil`.  So: a completed run yields nil, or `TaskTimeout` when the timer has
also fired by the time select picks; a deadline exit (no send) yields
`TaskTimeout` from the fired timer, or nil from the closed `doneChan`; an
error exit yields the raw error from the buffered `errChan`, or nil from
the closed `doneChan`, or `TaskTimeout` when the timer has also fired. -/
inductive SelectCanReturn : WaitOutcome → Option GoError → Prop
  | doneNil : SelectCanReturn .done none
  | doneTimer : SelectCanReturn .done (some .taskTimeout)
  | timedOutTimer : SelectCanReturn .timedOut (some .taskTimeout)
  | timedOutClosed : SelectCanReturn .timedOut none
  | erroredChan (e : GoError) : SelectCanReturn (.errored e) (some e)
  | erroredTimer (e : GoError) :
      SelectCanReturn (.errored e) (some .taskTimeout)
  | erroredClosed (e : GoError) : SelectCanReturn (.errored e) none

/-- All values a call of `WaitJSObjectFor` can return: the two early
returns are deterministic, and past them any resolution of the select race
over the goroutine's terminal outcome can occur. -/
def waitJSObjectForCanReturn (eval : String → Nat → EvalResult)
    (objName : String) (untl sleepCost : Nat) (r : Option GoError) : Prop :=
  if objName.length = 0 then r = none
  else if untl = 0 then r = some .taskTimeout
  else SelectCanReturn
    (runNames eval untl sleepCost (cumulativeNames objName) 0 0).1 r

/-- Helper: a non-empty string has non-zero length. -/
theorem strLength_ne_zero (s : String) (h : s ≠ "") : s.length ≠ 0 := by
  intro h0
  apply h
  cases s with
  | mk data =>
    cases data with
    | nil => rfl
    | cons c cs => simp [String.length] at h0

/-- Helper: once the `sync.Once` is consumed, further CleanUp invocations
change neither the once flag nor the release count, and add one Close
each. -/
theorem cleanUpRun_consumed (errs : List (Option GoError)) :
    ∀ d c : Nat, cleanUpRun errs ⟨true, d, c⟩ = ⟨true, d, c + errs.length⟩ := by
  induction errs with
  | nil => intro d c; rfl
  | cons e rest ih =>
    intro d c
    have h1 : cleanUpRun (e :: rest) ⟨true, d, c⟩ =
        cleanUpRun rest (cleanUp e ⟨true, d, c⟩) := rfl
    have h2 : cleanUp e (⟨true, d, c⟩ : PageLifeState) = ⟨true, d, c + 1⟩ := rfl
    rw [h1, h2, ih]
    have h3 : c + 1 + rest.length = c + (e :: rest).length := by
      simp [List.length_cons]; omega
    rw [h3]

/-- C1: however many times `CleanUp` is invoked on one page — `sync.Once`
serialises racing invocations, so every concurrent or sequential history is
some non-empty list of atomic steps, each carrying whatever error the
underlying `Close` produced — the release callback `done` (the browser
owner's outstanding-counter decrement) runs exactly once, every invocation
runs `Close` with its error discarded (the step does not depend on the close
error), and an invocation finding the once consumed performs no further
release. -/
theorem cleanUp_release_exactly_once (errs : List (Option GoError))
    (hne : errs ≠ []) :
    (cleanUpRun errs initPageState).doneCalls = 1 ∧
    (cleanUpRun errs initPageState).closeCalls = errs.length ∧
    (∀ e e2 : Option GoError, ∀ s : PageLifeState, cleanUp e s = cleanUp e2 s) ∧
    (∀ s : PageLifeState, s.onceUsed = true → ∀ e,
      (cleanUp e s).doneCalls = s.doneCalls) := by
  obtain ⟨e, rest, rfl⟩ := List.exists_cons_of_ne_nil hne
  have h1 : cleanUpRun (e :: rest) initPageState =
      cleanUpRun rest (cleanUp e initPageState) := rfl
  have h2 : cleanUp e initPageState = ⟨true, 1, 1⟩ := rfl
  refine ⟨?_, ?_, fun _ _ _ => rfl, ?_⟩
  · rw [h1, h2, cleanUpRun_consumed]
  · rw [h1, h2, cleanUpRun_consumed]
    simp [List.length_cons]
    omega
  · intro s hs e2
    simp [cleanUp, hs]

/-- C1 witness: a triple invocation, the middle one with a failing close. -/
theorem cleanUp_release_exactly_once_witness :
    (cleanUpRun [none, some GoError.taskTimeout, none] initPageState).doneCalls
      = 1 :=
  (cleanUp_release_exactly_once [none, some GoError.taskTimeout, none]
    (by decide)).1

/-- C2: from a pool seeded with its capacity C, along every interleaving of
atomic Get and Put steps in which callers return only pages they acquired,
the pool conserves `avail + checkedOut = C`, so the number of pages checked
out at once never exceeds C. -/
theorem pagePool_checkedOut_bounded (C : Nat) (s : PoolState)
    (h : PoolReachable C s) : s.avail + s.checkedOut = C ∧ s.checkedOut ≤ C := by
  have key : s.avail + s.checkedOut = C := by
    induction h with
    | init => simp
    | step hr hstep ih =>
      rename_i s2 t2
      cases hstep with
      | get hg =>
        show s2.avail - 1 + (s2.checkedOut + 1) = C
        omega
      | put hp =>
        show s2.avail + 1 + (s2.checkedOut - 1) = C
        omega
  exact ⟨key, by omega⟩

/-- C2 witness: capacity 2, one page checked out after a single Get. -/
theorem pagePool_checkedOut_bounded_witness :
    (⟨1, 1⟩ : PoolState).avail + (⟨1, 1⟩ : PoolState).checkedOut = 2 ∧
    (⟨1, 1⟩ : PoolState).checkedOut ≤ 2 :=
  pagePool_checkedOut_bounded 2 ⟨1, 1⟩
    (PoolReachable.step PoolReachable.init (PoolStep.get ⟨2, 0⟩ (by decide)))

/-- C5: `WaitJSObjectFor` returns nil for the empty object name whatever the
deadline — the empty-name test precedes the zero-deadline test, so this holds
at deadline zero in particular — and returns `TaskTimeout` for every
non-empty name with a zero deadline. -/
theorem waitJSObjectFor_empty_and_zero (eval : String → Nat → EvalResult)
    (untl sleepCost : Nat) (name : String) (hname : name ≠ "") :
    waitJSObjectFor eval "" untl sleepCost = none ∧
    waitJSObjectFor eval name 0 sleepCost = some GoError.taskTimeout := by
  constructor
  · rfl
  · have hlen := strLength_ne_zero name hname
    simp [waitJSObjectFor, hlen]

/-- C5 witness: the non-empty name "a" at deadline zero, next to the empty
name at deadline zero. -/
theorem waitJSObjectFor_empty_and_zero_witness :
    waitJSObjectFor (fun _ _ => .val false) "" 0 0 = none ∧
    waitJSObjectFor (fun _ _ => .val false) "a" 0 0 =
      some GoError.taskTimeout :=
  waitJSObjectFor_empty_and_zero (fun _ _ => .val false) 0 0 "a" (by decide)

/-- C7: the classifier maps nil to nil, maps every error whose message
contains the "ABORTED" marker to `context.Canceled` — whose own message no
longer contains the marker — and returns every other error unchanged. -/
theorem replaceAbortedError_classifies :
    replaceAbortedError none = none ∧
    (∀ e : GoError, strContains e.message "ABORTED" = true →
      replaceAbortedError (some e) = some GoError.canceled ∧
      strContains (GoError.message GoError.canceled) "ABORTED" = false) ∧
    (∀ e : GoError, strContains e.message "ABORTED" = false →
      replaceAbortedError (some e) = some e) := by
  refine ⟨rfl, fun e he => ⟨?_, by decide⟩, fun e he => ?_⟩
  · simp [replaceAbortedError, replaceAbortedErrorNN, he]
  · simp [replaceAbortedError, replaceAbortedErrorNN, he]

/-- C7 witness: an engine abort message is rewritten, an unrelated message is
passed through. -/
theorem replaceAbortedError_classifies_witness :
    replaceAbortedError (some (GoError.mk "net: ABORTED by peer")) =
      some GoError.canceled ∧
    replaceAbortedError (some (GoError.mk "plain failure")) =
      some (GoError.mk "plain failure") :=
  ⟨(replaceAbortedError_classifies.2.1 (GoError.mk "net: ABORTED by peer")
      (by decide)).1,
   replaceAbortedError_classifies.2.2 (GoError.mk "plain failure") (by decide)⟩

/-- Helper: the select loop of ClickNavigate passes over any run of nil
click-failure messages. -/
theorem clickNavigateSelect_after_nils : ∀ (pre l : List RaceEvent),
    (∀ x ∈ pre, x = RaceEvent.clickFail none) →
    clickNavigateSelect (pre ++ l) = clickNavigateSelect l := by
  intro pre
  induction pre with
  | nil => intro l _; rfl
  | cons x xs ih =>
    intro l hpre
    have hx := hpre x (List.mem_cons_self x xs)
    subst hx
    have h1 : clickNavigateSelect ((RaceEvent.clickFail none :: xs) ++ l) =
        clickNavigateSelect (xs ++ l) := rfl
    rw [h1]
    exact ih l (fun y hy => hpre y (List.mem_cons_of_mem _ hy))

/-- C8: a nil message on the click-failure channel (the value read once the
channel is closed without a send) never produces a verdict — the loop simply
re-enters select — while a non-nil click failure, reached after any run of
nil messages, is returned at once: the verdict does not depend on whatever
navigation-settled or timeout signals would have arrived later. -/
theorem clickNavigate_race (pre rest : List RaceEvent) (e : GoError)
    (hpre : ∀ x ∈ pre, x = RaceEvent.clickFail none) :
    clickNavigateSelect (RaceEvent.clickFail none :: rest) =
      clickNavigateSelect rest ∧
    clickNavigateSelect (pre ++ RaceEvent.clickFail (some e) :: rest) =
      some (some e) := by
  refine ⟨rfl, ?_⟩
  rw [clickNavigateSelect_after_nils pre _ hpre]
  rfl

/-- C8 witness: a nil message followed by a real click failure wins against a
timeout that would have arrived later. -/
theorem clickNavigate_race_witness :
    clickNavigateSelect [RaceEvent.clickFail none,
      RaceEvent.clickFail (some (wrap GoError.clickFailed "a")),
      RaceEvent.timeout] = some (some (wrap GoError.clickFailed "a")) :=
  (clickNavigate_race [RaceEvent.clickFail none] [RaceEvent.timeout]
    (wrap GoError.clickFailed "a") (by decide)).2

/-- C10: for every non-positive requested pool size, browser construction
still succeeds with a nil error and the page pool gets capacity exactly one,
for `NewBrowser` and for `NewBrowserWithProxy` with any proxy. -/
theorem newBrowser_clamps_nonpositive_pool (n : Int) (proxy : String)
    (h : n ≤ 0) :
    (newBrowser n).2 = none ∧ (newBrowser n).1.poolCap = 1 ∧
    (newBrowserWithProxy n proxy).2 = none ∧
    (newBrowserWithProxy n proxy).1.poolCap = 1 := by
  simp [newBrowser, newBrowserWithProxy, if_pos h]

/-- C10 witness: the pool size -10 exercised by the repository's own test,
with and without a proxy. -/
theorem newBrowser_clamps_nonpositive_pool_witness :
    (newBrowser (-10)).2 = none ∧ (newBrowser (-10)).1.poolCap = 1 ∧
    (newBrowserWithProxy (-10) "192.168.1.1:5000").2 = none ∧
    (newBrowserWithProxy (-10) "192.168.1.1:5000").1.poolCap = 1 :=
  newBrowser_clamps_nonpositive_pool (-10) "192.168.1.1:5000" (by decide)

/-- Helper: indexing a mapped range. -/
theorem getD_map_range : ∀ (j : Nat) (f : Nat → Nat) (K : Nat), j < K →
    ((List.range K).map f).getD j 0 = f j := by
  intro j
  induction j with
  | zero =>
    intro f K hK
    cases K with
    | zero => omega
    | succ K2 =>
      rw [List.range_succ_eq_map, List.map_cons]
      exact List.getD_cons_zero
  | succ j ih =>
    intro f K hK
    cases K with
    | zero => omega
    | succ K2 =>
      rw [List.range_succ_eq_map, List.map_cons, List.map_map,
        List.getD_cons_succ]
      exact ih (f ∘ Nat.succ) K2 (by omega)

/-- Helper: a run of `TryNavigate`'s loop in which the `K` attempts from
`a` on complete without fault and are rejected, and attempt `a + K` completes
and is accepted, returns nil after attempt `a + K`, having slept the delays
`d + B, d + 2B, ...` in order. -/
theorem tryNavigateLoop_accepts (eng : Nat → NavAttempt) (B : Nat) :
    ∀ (K d a fuel : Nat), K < fuel →
    (∀ i, i < K → (eng (a + i)).fault = none ∧ (eng (a + i)).predOk = false) →
    (eng (a + K)).fault = none → (eng (a + K)).predOk = true →
    tryNavigateLoop eng B d a fuel =
      some ⟨none, a + K + 1, (List.range K).map (fun j => d + (j + 1) * B)⟩ := by
  intro K
  induction K with
  | zero =>
    intro d a fuel hfuel hrej hf hp
    cases fuel with
    | zero => omega
    | succ f =>
      have hf0 : (eng a).fault = none := hf
      have hp0 : (eng a).predOk = true := hp
      simp [tryNavigateLoop, hf0, hp0]
  | succ K ih =>
    intro d a fuel hfuel hrej hf hp
    cases fuel with
    | zero => omega
    | succ f =>
      have h0 := hrej 0 (Nat.succ_pos K)
      have hf0 : (eng a).fault = none := h0.1
      have hp0 : (eng a).predOk = false := h0.2
      have hrej2 : ∀ i, i < K →
          (eng (a + 1 + i)).fault = none ∧ (eng (a + 1 + i)).predOk = false := by
        intro i hi
        have heq : a + 1 + i = a + (i + 1) := by omega
        rw [heq]
        exact hrej (i + 1) (by omega)
      have hf2 : (eng (a + 1 + K)).fault = none := by
        have heq : a + 1 + K = a + (K + 1) := by omega
        rw [heq]; exact hf
      have hp2 : (eng (a + 1 + K)).predOk = true := by
        have heq : a + 1 + K = a + (K + 1) := by omega
        rw [heq]; exact hp
      have hrec := ih (d + B) (a + 1) f (by omega) hrej2 hf2 hp2
      simp only [tryNavigateLoop, hf0, hp0, hrec]
      have hatt : a + 1 + K + 1 = a + (K + 1) + 1 := by omega
      have hsl : (d + B) :: (List.range K).map (fun j => d + B + (j + 1) * B) =
          (List.range (K + 1)).map (fun j => d + (j + 1) * B) := by
        rw [List.range_succ_eq_map, List.map_cons, List.map_map]
        have hh : d + (0 + 1) * B = d + B := by ring
        rw [hh]
        have hfun : ∀ j ∈ List.range K,
            ((fun j => d + (j + 1) * B) ∘ Nat.succ) j = d + B + (j + 1) * B := by
          intro j _
          show d + (j + 1 + 1) * B = d + B + (j + 1) * B
          ring
        rw [List.map_congr_left hfun]
      simp [hatt, hsl]

/-- Helper: a run of `TryNavigate`'s loop whose first `K` attempts from `a`
complete and are rejected, and whose attempt `a + K` panics with an error
value, forwards that value through the classifier and stops. -/
theorem tryNavigateLoop_fault (eng : Nat → NavAttempt) (B : Nat) (e : GoError) :
    ∀ (K d a fuel : Nat), K < fuel →
    (∀ i, i < K → (eng (a + i)).fault = none ∧ (eng (a + i)).predOk = false) →
    (eng (a + K)).fault = some (PanicVal.errVal e) →
    tryNavigateLoop eng B d a fuel =
      some ⟨some (replaceAbortedErrorNN e), a + K + 1,
        (List.range K).map (fun j => d + (j + 1) * B)⟩ := by
  intro K
  induction K with
  | zero =>
    intro d a fuel hfuel hrej hf
    cases fuel with
    | zero => omega
    | succ f =>
      have hf0 : (eng a).fault = some (PanicVal.errVal e) := hf
      simp [tryNavigateLoop, hf0, replaceAbortedError]
  | succ K ih =>
    intro d a fuel hfuel hrej hf
    cases fuel with
    | zero => omega
    | succ f =>
      have h0 := hrej 0 (Nat.succ_pos K)
      have hf0 : (eng a).fault = none := h0.1
      have hp0 : (eng a).predOk = false := h0.2
      have hrej2 : ∀ i, i < K →
          (eng (a + 1 + i)).fault = none ∧ (eng (a + 1 + i)).predOk = false := by
        intro i hi
        have heq : a + 1 + i = a + (i + 1) := by omega
        rw [heq]
        exact hrej (i + 1) (by omega)
      have hf2 : (eng (a + 1 + K)).fault = some (PanicVal.errVal e) := by
        have heq : a + 1 + K = a + (K + 1) := by omega
        rw [heq]; exact hf
      have hrec := ih (d + B) (a + 1) f (by omega) hrej2 hf2
      simp only [tryNavigateLoop, hf0, hp0, hrec]
      have hatt : a + 1 + K + 1 = a + (K + 1) + 1 := by omega
      have hsl : (d + B) :: (List.range K).map (fun j => d + B + (j + 1) * B) =
          (List.range (K + 1)).map (fun j => d + (j + 1) * B) := by
        rw [List.range_succ_eq_map, List.map_cons, List.map_map]
        have hh : d + (0 + 1) * B = d + B := by ring
        rw [hh]
        have hfun : ∀ j ∈ List.range K,
            ((fun j => d + (j + 1) * B) ∘ Nat.succ) j = d + B + (j + 1) * B := by
          intro j _
          show d + (j + 1 + 1) * B = d + B + (j + 1) * B
          ring
        rw [List.map_congr_left hfun]
      simp [hatt, hsl]

/-- C3: with backoff unit B > 0 and a predicate rejecting the first K
attempts then accepting the K+1-th, `TryNavigate` returns nil after exactly
K+1 navigation attempts; the delay variable starts at B and the slept delays
grow by exactly one unit B per rejected attempt, so the delay slept before
the i-th reattempt (i = j+1 at list index j) is non-decreasing in i and at
least i·B. -/
theorem tryNavigate_retry_backoff (eng : Nat → NavAttempt) (B K fuel : Nat)
    (_hB : 0 < B) (hfuel : K < fuel)
    (hrej : ∀ i, i < K → (eng i).fault = none ∧ (eng i).predOk = false)
    (hf : (eng K).fault = none) (hacc : (eng K).predOk = true) :
    tryNavigate eng B fuel =
      some ⟨none, K + 1, (List.range K).map (fun j => (j + 2) * B)⟩ ∧
    (∀ j, j < K →
      (j + 1) * B ≤ ((List.range K).map (fun j2 => (j2 + 2) * B)).getD j 0) ∧
    (∀ j j2, j ≤ j2 → j2 < K →
      ((List.range K).map (fun j3 => (j3 + 2) * B)).getD j 0 ≤
        ((List.range K).map (fun j3 => (j3 + 2) * B)).getD j2 0) ∧
    (∀ j, j + 1 < K →
      ((List.range K).map (fun j3 => (j3 + 2) * B)).getD (j + 1) 0 =
        ((List.range K).map (fun j3 => (j3 + 2) * B)).getD j 0 + B) := by
  have hzf : (eng (0 + K)).fault = none := by
    rw [Nat.zero_add]; exact hf
  have hzp : (eng (0 + K)).predOk = true := by
    rw [Nat.zero_add]; exact hacc
  have hzrej : ∀ i, i < K →
      (eng (0 + i)).fault = none ∧ (eng (0 + i)).predOk = false := by
    intro i hi
    rw [Nat.zero_add]; exact hrej i hi
  have hrun := tryNavigateLoop_accepts eng B K B 0 fuel hfuel hzrej hzf hzp
  refine ⟨?_, ?_, ?_, ?_⟩
  · rw [tryNavigate, hrun]
    have hsl : (List.range K).map (fun j => B + (j + 1) * B) =
        (List.range K).map (fun j => (j + 2) * B) := by
      refine List.map_congr_left ?_
      intro j _
      show B + (j + 1) * B = (j + 2) * B
      ring
    simp [hsl]
  · intro j hj
    rw [getD_map_range j _ K hj]
    exact Nat.mul_le_mul_right B (by omega)
  · intro j j2 hle hj2
    rw [getD_map_range j _ K (by omega), getD_map_range j2 _ K hj2]
    exact Nat.mul_le_mul_right B (by omega)
  · intro j hj
    rw [getD_map_range (j + 1) _ K hj, getD_map_range j _ K (by omega)]
    ring

/-- C3 witness: backoff 5, rejections on attempts 0 and 1, acceptance on
attempt 2; the run returns nil after 3 attempts sleeping 10 then 15. -/
theorem tryNavigate_retry_backoff_witness :
    tryNavigate (fun i => ⟨none, i == 2⟩) 5 10 =
      some ⟨none, 3, (List.range 2).map (fun j => (j + 2) * 5)⟩ :=
  (tryNavigate_retry_backoff (fun i => ⟨none, i == 2⟩) 5 2 10 (by decide)
    (by decide) (by decide) (by decide) (by decide)).1

/-- C4: when an attempt of `TryNavigate` raises an abrupt fault carrying an
error value — after any number of completed rejected attempts — the deferred
recover catches it at the goroutine boundary, passes it through the
classifier `replaceAbortedError`, and the call returns that classified error
as a normal value: the loop stops at that attempt and the outcome is never
the nil success value. -/
theorem tryNavigate_fault_short_circuits (eng : Nat → NavAttempt)
    (B fuel K : Nat) (e : GoError) (hfuel : K < fuel)
    (hrej : ∀ i, i < K → (eng i).fault = none ∧ (eng i).predOk = false)
    (hf : (eng K).fault = some (PanicVal.errVal e)) :
    tryNavigate eng B fuel =
      some ⟨some (replaceAbortedErrorNN e), K + 1,
        (List.range K).map (fun j => (j + 2) * B)⟩ ∧
    (some (replaceAbortedErrorNN e) : Option GoError) ≠ none := by
  have hzf : (eng (0 + K)).fault = some (PanicVal.errVal e) := by
    rw [Nat.zero_add]; exact hf
  have hzrej : ∀ i, i < K →
      (eng (0 + i)).fault = none ∧ (eng (0 + i)).predOk = false := by
    intro i hi
    rw [Nat.zero_add]; exact hrej i hi
  have hrun := tryNavigateLoop_fault eng B e K B 0 fuel hfuel hzrej hzf
  refine ⟨?_, by simp⟩
  rw [tryNavigate, hrun]
  have hsl : (List.range K).map (fun j => B + (j + 1) * B) =
      (List.range K).map (fun j => (j + 2) * B) := by
    refine List.map_congr_left ?_
    intro j _
    show B + (j + 1) * B = (j + 2) * B
    ring
  simp [hsl]

/-- C4 witness: attempt 0 completes rejected, attempt 1 panics with an
engine abort error; the call returns `context.Canceled` after 2 attempts. -/
theorem tryNavigate_fault_short_circuits_witness :
    tryNavigate
      (fun i => if i == 1
        then ⟨some (PanicVal.errVal (GoError.mk "x ABORTED")), false⟩
        else ⟨none, false⟩) 5 10 =
      some ⟨some (replaceAbortedErrorNN (GoError.mk "x ABORTED")), 2,
        (List.range 1).map (fun j => (j + 2) * 5)⟩ :=
  (tryNavigate_fault_short_circuits
    (fun i => if i == 1
      then ⟨some (PanicVal.errVal (GoError.mk "x ABORTED")), false⟩
      else ⟨none, false⟩) 5 10 1 (GoError.mk "x ABORTED") (by decide)
    (by decide) (by decide)).1

/-- Helper: every tick at which the inner poll loop evaluates its script is
at or after the tick the loop started at. -/
theorem pollGo_ticks_ge (eval : String → Nat → EvalResult) (sc : Nat)
    (s : String) : ∀ (f t : Nat), ∀ x ∈ (pollGo eval sc s f t).2, t ≤ x := by
  intro f
  induction f with
  | zero => intro t x hx; simp [pollGo] at hx
  | succ f ih =>
    intro t x hx
    rw [pollGo] at hx
    cases hev : eval s t with
    | err e =>
      rw [hev] at hx
      simp at hx
      omega
    | val b =>
      rw [hev] at hx
      cases b with
      | true =>
        simp at hx
        omega
      | false =>
        simp at hx
        rcases hx with h | h
        · omega
        · have := ih (t + 1) x h
          omega

/-- Helper: when the inner poll loop reports its script found, some polled
tick `tf` evaluated to true, the loop hands the next name the tick after
`tf` plus the sleep, and `tf` is the last polled tick. -/
theorem pollGo_found (eval : String → Nat → EvalResult) (sc : Nat)
    (s : String) : ∀ (f t t2 : Nat) (ts : List Nat),
    pollGo eval sc s f t = (.found t2, ts) →
    ∃ tf, tf ∈ ts ∧ eval s tf = .val true ∧ t2 = tf + 1 + sc ∧
      ∀ x ∈ ts, x ≤ tf := by
  intro f
  induction f with
  | zero =>
    intro t t2 ts h
    simp [pollGo] at h
  | succ f ih =>
    intro t t2 ts h
    rw [pollGo] at h
    cases hev : eval s t with
    | err e =>
      rw [hev] at h
      simp at h
    | val b =>
      rw [hev] at h
      cases b with
      | true =>
        simp at h
        obtain ⟨h1, h2⟩ := h
        refine ⟨t, ?_, hev, by omega, ?_⟩
        · simp [← h2]
        · intro x hx
          rw [← h2] at hx
          simp at hx
          omega
      | false =>
        cases hrec : pollGo eval sc s f (t + 1) with
        | mk o ts2 =>
          rw [hrec] at h
          simp at h
          obtain ⟨ho, rfl⟩ := h
          obtain ⟨tf, htf, hev2, ht2, hbound⟩ :=
            ih (t + 1) t2 ts2 (by rw [hrec, ho])
          refine ⟨tf, ?_, hev2, ht2, ?_⟩
          · simp
            right
            exact htf
          · intro x hx
            simp at hx
            rcases hx with h | h
            · have := pollGo_ticks_ge eval sc s f (t + 1) tf (by
                rw [hrec]
                exact htf)
              omega
            · exact hbound x h

/-- Helper: ticks polled by one name start at or after the entry tick. -/
theorem pollName_ticks_ge (eval : String → Nat → EvalResult) (untl sc : Nat)
    (s : String) (t : Nat) : ∀ x ∈ (pollName eval untl sc s t).2, t ≤ x :=
  pollGo_ticks_ge eval sc s (untl + 1 - t) t

/-- Helper: the found case of one name's poll, at the deadline-derived
fuel. -/
theorem pollName_found (eval : String → Nat → EvalResult) (untl sc : Nat)
    (s : String) (t t2 : Nat) (ts : List Nat)
    (h : pollName eval untl sc s t = (.found t2, ts)) :
    ∃ tf, tf ∈ ts ∧ eval s tf = .val true ∧ t2 = tf + 1 + sc ∧
      ∀ x ∈ ts, x ≤ tf :=
  pollGo_found eval sc s (untl + 1 - t) t t2 ts h

/-- Helper: unfolding of the outer loop when the head name times out. -/
theorem runNames_cons_timedOut (eval : String → Nat → EvalResult)
    (untl sc : Nat) (s : String) (rest : List String) (k t : Nat)
    (ts : List Nat) (h : pollName eval untl sc s t = (.timedOut, ts)) :
    runNames eval untl sc (s :: rest) k t =
      (.timedOut, ts.map (fun x => (k, x))) := by
  rw [runNames, h]

/-- Helper: unfolding of the outer loop when the head name errors. -/
theorem runNames_cons_errored (eval : String → Nat → EvalResult)
    (untl sc : Nat) (s : String) (rest : List String) (k t : Nat)
    (e : GoError) (ts : List Nat)
    (h : pollName eval untl sc s t = (.errored e, ts)) :
    runNames eval untl sc (s :: rest) k t =
      (.errored e, ts.map (fun x => (k, x))) := by
  rw [runNames, h]

/-- Helper: unfolding of the outer loop when the head name is found. -/
theorem runNames_cons_found (eval : String → Nat → EvalResult)
    (untl sc : Nat) (s : String) (rest : List String) (k t t2 : Nat)
    (ts : List Nat) (h : pollName eval untl sc s t = (.found t2, ts)) :
    runNames eval untl sc (s :: rest) k t =
      ((runNames eval untl sc rest (k + 1) t2).1,
        ts.map (fun x => (k, x)) ++ (runNames eval untl sc rest (k + 1) t2).2) := by
  rw [runNames, h]

/-- Helper: every trace entry of the outer loop polls at or after the tick
the loop entered with. -/
theorem runNames_ticks_ge (eval : String → Nat → EvalResult) (untl sc : Nat) :
    ∀ (names : List String) (k t : Nat),
    ∀ p ∈ (runNames eval untl sc names k t).2, t ≤ p.2 := by
  intro names
  induction names with
  | nil => intro k t p hp; simp [runNames] at hp
  | cons s rest ih =>
    intro k t p hp
    cases hpoll : pollName eval untl sc s t with
    | mk o ts =>
      cases o with
      | timedOut =>
        rw [runNames_cons_timedOut eval untl sc s rest k t ts hpoll] at hp
        simp only [List.mem_map] at hp
        obtain ⟨x, hx, rfl⟩ := hp
        exact pollName_ticks_ge eval untl sc s t x (by rw [hpoll]; exact hx)
      | errored e =>
        rw [runNames_cons_errored eval untl sc s rest k t e ts hpoll] at hp
        simp only [List.mem_map] at hp
        obtain ⟨x, hx, rfl⟩ := hp
        exact pollName_ticks_ge eval untl sc s t x (by rw [hpoll]; exact hx)
      | found t2 =>
        rw [runNames_cons_found eval untl sc s rest k t t2 ts hpoll] at hp
        obtain ⟨tf, htf, hev, ht2, hb⟩ :=
          pollName_found eval untl sc s t t2 ts hpoll
        have htft : t ≤ tf :=
          pollName_ticks_ge eval untl sc s t tf (by rw [hpoll]; exact htf)
        simp only [List.mem_append, List.mem_map] at hp
        rcases hp with ⟨x, hx, rfl⟩ | hrec
        · exact pollName_ticks_ge eval untl sc s t x (by rw [hpoll]; exact hx)
        · have h2 : t2 ≤ p.2 := ih (k + 1) t2 p hrec
          omega

/-- Helper: when the outer loop finishes all names, every name at offset `j`
was observed defined at some polled tick recorded in the trace. -/
theorem runNames_done (eval : String → Nat → EvalResult) (untl sc : Nat) :
    ∀ (names : List String) (k t : Nat),
    (runNames eval untl sc names k t).1 = .done →
    ∀ j, j < names.length →
      ∃ x, (k + j, x) ∈ (runNames eval untl sc names k t).2 ∧
        eval (names.getD j "") x = .val true := by
  intro names
  induction names with
  | nil => intro k t hdone j hj; simp at hj
  | cons s rest ih =>
    intro k t hdone j hj
    cases hpoll : pollName eval untl sc s t with
    | mk o ts =>
      cases o with
      | timedOut =>
        rw [runNames_cons_timedOut eval untl sc s rest k t ts hpoll] at hdone
        simp at hdone
      | errored e =>
        rw [runNames_cons_errored eval untl sc s rest k t e ts hpoll] at hdone
        simp at hdone
      | found t2 =>
        rw [runNames_cons_found eval untl sc s rest k t t2 ts hpoll] at hdone ⊢
        simp only at hdone
        cases j with
        | zero =>
          obtain ⟨tf, htf, hev, ht2, hb⟩ :=
            pollName_found eval untl sc s t t2 ts hpoll
          refine ⟨tf, ?_, hev⟩
          apply List.mem_append_left
          exact List.mem_map_of_mem _ htf
        | succ j2 =>
          obtain ⟨x, hx, hev⟩ := ih (k + 1) t2 hdone j2 (by simpa using hj)
          refine ⟨x, ?_, by simpa using hev⟩
          have heq : k + 1 + j2 = k + (j2 + 1) := by omega
          rw [← heq]
          exact List.mem_append_right _ hx

/-- Helper: a name is polled only after every earlier name was observed
defined at a strictly earlier recorded tick. -/
theorem runNames_no_skip (eval : String → Nat → EvalResult) (untl sc : Nat) :
    ∀ (names : List String) (k t j x : Nat),
    (j, x) ∈ (runNames eval untl sc names k t).2 →
    k ≤ j ∧ j < k + names.length ∧
    ∀ i, k ≤ i → i < j →
      ∃ u, u < x ∧ (i, u) ∈ (runNames eval untl sc names k t).2 ∧
        eval (names.getD (i - k) "") u = .val true := by
  intro names
  induction names with
  | nil => intro k t j x h; simp [runNames] at h
  | cons s rest ih =>
    intro k t j x hmem
    cases hpoll : pollName eval untl sc s t with
    | mk o ts =>
      cases o with
      | timedOut =>
        rw [runNames_cons_timedOut eval untl sc s rest k t ts hpoll] at hmem ⊢
        simp only [List.mem_map] at hmem
        obtain ⟨x2, hx2, heq⟩ := hmem
        injection heq with hkj hxx
        subst hkj
        refine ⟨le_refl k, by simp, ?_⟩
        intro i hik hij
        omega
      | errored e =>
        rw [runNames_cons_errored eval untl sc s rest k t e ts hpoll] at hmem ⊢
        simp only [List.mem_map] at hmem
        obtain ⟨x2, hx2, heq⟩ := hmem
        injection heq with hkj hxx
        subst hkj
        refine ⟨le_refl k, by simp, ?_⟩
        intro i hik hij
        omega
      | found t2 =>
        rw [runNames_cons_found eval untl sc s rest k t t2 ts hpoll] at hmem ⊢
        obtain ⟨tf, htf, hev, ht2, hb⟩ :=
          pollName_found eval untl sc s t t2 ts hpoll
        simp only [List.mem_append, List.mem_map] at hmem
        rcases hmem with ⟨x2, hx2, heq⟩ | hrec
        · injection heq with hkj hxx
          subst hkj
          refine ⟨le_refl k, by simp, ?_⟩
          intro i hik hij
          omega
        · obtain ⟨hk1j, hjlt, hskip⟩ := ih (k + 1) t2 j x hrec
          have hxget2 : t2 ≤ x :=
            runNames_ticks_ge eval untl sc rest (k + 1) t2 (j, x) hrec
          refine ⟨by omega, by simp at hjlt ⊢; omega, ?_⟩
          intro i hik hij
          by_cases hieq : i = k
          · subst hieq
            refine ⟨tf, by omega, ?_, ?_⟩
            · apply List.mem_append_left
              exact List.mem_map_of_mem _ htf
            · have hz : i - i = 0 := by omega
              rw [hz]
              exact hev
          · obtain ⟨u, hu, humem, huev⟩ := hskip i (by omega) hij
            refine ⟨u, hu, List.mem_append_right _ humem, ?_⟩
            have heq : i - k = (i - (k + 1)) + 1 := by omega
            rw [heq, List.getD_cons_succ]
            exact huev

/-- Helper: a dot folded into the head of a joined list associates. -/
theorem joinDots_merge (a b : String) (l : List String) :
    joinDots ((a ++ "." ++ b) :: l) = a ++ "." ++ joinDots (b :: l) := by
  cases l with
  | nil => rfl
  | cons c rest =>
    show (a ++ "." ++ b) ++ "." ++ joinDots (c :: rest) =
      a ++ "." ++ (b ++ "." ++ joinDots (c :: rest))
    simp [String.append_assoc]

/-- Helper: the in-place accumulation of `WaitJSObjectFor` produces, for
each index, the first segments joined with dots. -/
theorem dotAccum_spec : ∀ (rest : List String) (s : String),
    s :: dotAccum s rest =
      (List.range (rest.length + 1)).map
        (fun i => joinDots ((s :: rest).take (i + 1))) := by
  intro rest
  induction rest with
  | nil =>
    intro s
    rfl
  | cons r rest ih =>
    intro s
    have hlen : (r :: rest).length + 1 = rest.length + 1 + 1 := by simp
    rw [hlen, List.range_succ_eq_map, List.map_cons, List.map_map]
    congr 1
    show dotAccum s (r :: rest) = _
    have hstep : dotAccum s (r :: rest) =
        (s ++ "." ++ r) :: dotAccum (s ++ "." ++ r) rest := rfl
    rw [hstep, ih (s ++ "." ++ r)]
    refine List.map_congr_left ?_
    intro i hi
    show joinDots (((s ++ "." ++ r) :: rest).take (i + 1)) =
      joinDots ((s :: r :: rest).take (i + 1 + 1))
    rw [List.take_succ_cons, List.take_succ_cons, List.take_succ_cons,
      joinDots_merge]
    rfl

/-- Helper: the names built by the in-place rewrite are exactly the
spec-side cumulative dotted names of the segments. -/
theorem cumulativeNames_eq_spec (name : String) :
    cumulativeNames name = specDottedNames (splitDots name) := by
  rw [cumulativeNames]
  cases h : splitDots name with
  | nil => simp [specDottedNames]
  | cons s rest =>
    rw [specDottedNames]
    have hlen : (s :: rest).length = rest.length + 1 := by simp
    rw [hlen]
    exact dotAccum_spec rest s

/-- Helper: the principal resolution computed by `waitJSObjectFor` is one
of the possible returns of the race. -/
theorem waitJSObjectFor_principal_possible (eval : String → Nat → EvalResult)
    (objName : String) (untl sc : Nat) :
    waitJSObjectForCanReturn eval objName untl sc
      (waitJSObjectFor eval objName untl sc) := by
  by_cases h1 : objName.length = 0
  · simp [waitJSObjectFor, waitJSObjectForCanReturn, h1]
  · by_cases h2 : untl = 0
    · simp [waitJSObjectFor, waitJSObjectForCanReturn, h1, h2]
    · cases ho : (runNames eval untl sc (cumulativeNames objName) 0 0).1 with
      | timedOut =>
        simp only [waitJSObjectFor, waitJSObjectForCanReturn, h1, h2, ho,
          if_false, if_neg]
        exact SelectCanReturn.timedOutTimer
      | errored e =>
        simp only [waitJSObjectFor, waitJSObjectForCanReturn, h1, h2, ho,
          if_false, if_neg]
        exact SelectCanReturn.erroredChan e
      | done =>
        simp only [waitJSObjectFor, waitJSObjectForCanReturn, h1, h2, ho,
          if_false, if_neg]
        exact SelectCanReturn.doneNil

/-- C9 (amended): a lower-level evaluation error while checking a name
makes the waiter goroutine abort the wait immediately and forward the raw
error, never passing it through the error classifier; the select race can
then return that raw error, and every value it can return is the raw error,
the spurious nil from the closed doneChan, or `TaskTimeout` from the timer
— never the canonical cancellation signal that classification would have
produced, unless the raw error already is it. -/
theorem waitJSObjectFor_error_aborts (eval : String → Nat → EvalResult)
    (name : String) (untl sc : Nat) (e : GoError)
    (hname : name ≠ "") (huntl : untl ≠ 0)
    (herr : (runNames eval untl sc (cumulativeNames name) 0 0).1 =
      .errored e) :
    waitJSObjectForCanReturn eval name untl sc (some e) ∧
    (∀ r, waitJSObjectForCanReturn eval name untl sc r →
      r = some e ∨ r = none ∨ r = some GoError.taskTimeout) ∧
    (e ≠ GoError.canceled →
      ∀ r, waitJSObjectForCanReturn eval name untl sc r →
        r ≠ some GoError.canceled) := by
  have hlen := strLength_ne_zero name hname
  have hunfold : ∀ r, waitJSObjectForCanReturn eval name untl sc r ↔
      SelectCanReturn (WaitOutcome.errored e) r := by
    intro r
    simp [waitJSObjectForCanReturn, hlen, huntl, herr]
  refine ⟨(hunfold (some e)).mpr (SelectCanReturn.erroredChan e), ?_, ?_⟩
  · intro r hr
    have hsel := (hunfold r).mp hr
    cases hsel with
    | erroredChan => left; rfl
    | erroredTimer => right; right; rfl
    | erroredClosed => right; left; rfl
  · intro hne r hr hcanc
    rw [hcanc] at hr
    have hsel := (hunfold (some GoError.canceled)).mp hr
    cases hsel with
    | erroredChan => exact hne rfl

/-- C9 witness: a failing evaluation can surface its raw error directly. -/
theorem waitJSObjectFor_error_aborts_witness :
    waitJSObjectForCanReturn (fun _ _ => .err (GoError.mk "eval failed"))
      "a" 5 0 (some (GoError.mk "eval failed")) :=
  (waitJSObjectFor_error_aborts (fun _ _ => .err (GoError.mk "eval failed"))
    "a" 5 0 (GoError.mk "eval failed") (by decide) (by decide) (by rfl)).1

/-- C9 counterexample: with an engine whose evaluation fails with an
"ABORTED"-marked error — the torn-down-session signal — `WaitJSObjectFor`
returns that raw error, although the classifier maps it to
`context.Canceled`; the result is not the canonical cancellation signal, so
the wait does not classify the error it propagates. -/
theorem waitJSObjectFor_error_unclassified_cex :
    waitJSObjectFor (fun _ _ => .err (GoError.mk "target ABORTED")) "a" 5 0 =
      some (GoError.mk "target ABORTED") ∧
    replaceAbortedError (some (GoError.mk "target ABORTED")) =
      some GoError.canceled ∧
    some (GoError.mk "target ABORTED") ≠ some GoError.canceled := by
  refine ⟨rfl, by decide, by decide⟩

/-- C6 counterexample: with an engine under which no name ever evaluates
defined, the waiter goroutine exits on the deadline without sending its
success signal — yet nil is still a possible return of `WaitJSObjectFor`,
through the `case <-doneChan` made ready by the deferred close: the nil
"success" return can occur without any prefix having been observed
defined. -/
theorem waitJSObjectFor_spurious_success_cex :
    (runNames (fun _ _ => EvalResult.val false) 5 0
      (cumulativeNames "a.b") 0 0).1 = WaitOutcome.timedOut ∧
    waitJSObjectForCanReturn (fun _ _ => EvalResult.val false) "a.b" 5 0
      none :=
  ⟨rfl, SelectCanReturn.timedOutClosed⟩

/-- C6 (amended): for a non-empty dotted name, the waiter goroutine polls
the cumulative dotted names — the spec-side joins of the first i+1
segments — and reaches its success signal only once every one of them has
been observed defined, never before: on a `done` outcome every name was
observed defined at a recorded tick, any recorded poll of the j-th name
happens only after every earlier name was observed defined at a strictly
earlier tick, and nil is then a return of the select race.  The converse
direction fails in the code — nil alone does not certify the names were
observed (see the counterexample). -/
theorem waitJSObjectFor_cumulative_order (eval : String → Nat → EvalResult)
    (name : String) (untl sc : Nat)
    (hname : name ≠ "") (huntl : untl ≠ 0)
    (hdone : (runNames eval untl sc (cumulativeNames name) 0 0).1 =
      WaitOutcome.done) :
    cumulativeNames name = specDottedNames (splitDots name) ∧
    waitJSObjectForCanReturn eval name untl sc none ∧
    (∀ j, j < (cumulativeNames name).length →
      ∃ x, (j, x) ∈ (runNames eval untl sc (cumulativeNames name) 0 0).2 ∧
        eval ((cumulativeNames name).getD j "") x = .val true) ∧
    (∀ j x, (j, x) ∈ (runNames eval untl sc (cumulativeNames name) 0 0).2 →
      j < (cumulativeNames name).length ∧
      ∀ i, i < j →
        ∃ u, u < x ∧
          (i, u) ∈ (runNames eval untl sc (cumulativeNames name) 0 0).2 ∧
          eval ((cumulativeNames name).getD i "") u = .val true) := by
  have hlen := strLength_ne_zero name hname
  refine ⟨cumulativeNames_eq_spec name, ?_, ?_, ?_⟩
  · simp only [waitJSObjectForCanReturn, hlen, huntl, if_false, if_neg, hdone]
    exact SelectCanReturn.doneNil
  · intro j hj
    have h := runNames_done eval untl sc (cumulativeNames name) 0 0 hdone j hj
    simpa using h
  · intro j x hmem
    obtain ⟨hkj, hjl, hskip⟩ := runNames_no_skip eval untl sc
      (cumulativeNames name) 0 0 j x hmem
    refine ⟨by simpa using hjl, ?_⟩
    intro i hi
    obtain ⟨u, hu, humem, huev⟩ := hskip i (Nat.zero_le i) hi
    exact ⟨u, hu, humem, huev⟩

/-- C6 witness: the polled-name characterization at the nested name "a.b"
with an engine under which every check reports defined, so the goroutine
completes. -/
theorem waitJSObjectFor_cumulative_order_witness :
    cumulativeNames "a.b" = specDottedNames (splitDots "a.b") :=
  (waitJSObjectFor_cumulative_order (fun _ _ => .val true) "a.b" 5 0
    (by decide) (by decide) (by rfl)).1

end Chromium
